import Mathlib

/-!
Verification of the translated-recipe caching proxy of the
cozinhaexpress backend (src/src/index.ts), together with the login
endpoint.  The handler of the GET route for /api/recipe/:name is embedded
as a pure function `getTranslatedRecipe` over an explicit cache state,
parameterised by the external providers (The MealDB lookup via axios, the
google-translate client, and the outcome of the node-cache `set`).  The
function additionally returns the list of external provider calls it
performed, so that claims about "zero external calls" can be stated.
-/

namespace CozinhaExpress

/-- The loop bound of `for (let i = 1; i <= 20; i++)` over the numbered
fields `strIngredient1` .. `strIngredient20` (index.ts lines 678-683). -/
def maxIngredients : Nat := 20

/-- JavaScript truthiness of an optional string-valued object field:
`undefined`/`null` and the empty string are falsy, every other string is
truthy.  This is the test `if (ingredient)` of index.ts line 680. -/
def truthy : Option String → Bool
  | none => false
  | some s => !s.isEmpty

/-- A meal record as returned by The MealDB `search.php` endpoint.
`strIngredient i` is the value of field `strIngredient{i}` (`none` for a
missing or `null` field).  `passthrough` stands for every further field of
the JSON object (category, area, thumbnail, the `strMeasure` fields, ...);
the handler copies them verbatim with the spread `{ ...meal }` and never
touches them again. -/
structure Meal where
  idMeal : String
  strMeal : String
  strInstructions : String
  strIngredient : Nat → Option String
  passthrough : List (String × String)

/-- One call to an external provider made while serving the request. -/
inductive ExtCall where
  | source (name : String)
  | translate (text : String)
deriving DecidableEq

/-- The response sent by the recipe handler: `res.json(...)` with status
200, `res.status(404).json({error})`, or `res.status(500).json({error})`. -/
inductive RecipeResponse where
  | ok (meal : Meal)
  | notFound (error : String)
  | serverError (error : String)

/-- The HTTP status code carried by each response shape. -/
def RecipeResponse.status : RecipeResponse → Nat
  | .ok _ => 200
  | .notFound _ => 404
  | .serverError _ => 500

/-- Whether the response is the 200 success shape. -/
def RecipeResponse.isOk : RecipeResponse → Bool
  | .ok _ => true
  | _ => false

/-- The state of the node-cache instance (index.ts line 524), restricted to
the recipe entries: an association list from cache key to stored record.
`cacheSet` prepends, so a later `set` for the same key shadows (node-cache
`set` overwrites). -/
abbrev CacheState := List (String × Meal)

/-- Point lookup, `cache.get(cacheKey)` (index.ts line 658). -/
def cacheGet : CacheState → String → Option Meal
  | [], _ => none
  | (k, v) :: rest, key => if k = key then some v else cacheGet rest key

/-- Insert, `cache.set(cacheKey, translatedMeal)` (index.ts line 686). -/
def cacheSet (st : CacheState) (key : String) (m : Meal) : CacheState :=
  (key, m) :: st

/-- The external collaborators of one request, as injectable stubs:
`lookup` is the axios GET against The MealDB (`Except.error` models a
thrown network error, `Except.ok` carries `response.data.meals`, which is
`null` or a list); `tr` is the translate client targeting Portuguese
(`Except.error` models a thrown translation error); `putOk = false` models
a cache store whose `set` throws. -/
structure Providers where
  lookup : String → Except Unit (Option (List Meal))
  tr : String → Except Unit String
  putOk : Bool

/-- The cache key `recipe_${name}_pt` (index.ts line 657). -/
def recipeCacheKey (name : String) : String :=
  "recipe_" ++ name ++ "_pt"

/-- The extraction `response.data.meals ? response.data.meals[0] : null`
(index.ts line 667): `null` data yields no meal, and an empty array is
truthy in JavaScript but its element 0 is `undefined`, so it also yields
no meal. -/
def mealsHead : Option (List Meal) → Option Meal
  | none => none
  | some l => l.head?

/-- The assignment `translatedMeal[`strIngredient${i}`] = t`. -/
def setIngredient (m : Meal) (i : Nat) (t : String) : Meal :=
  { m with strIngredient := fun j => if j = i then some t else m.strIngredient j }

/-- The loop of index.ts lines 678-683 over a list of slot indices:
read `meal[`strIngredient${i}`]`; if truthy, translate it and write the
result into the accumulator record, aborting the whole loop (the thrown
exception) on the first failing translation.  Returns the final record
(`none` when a translation threw) and the translate calls dispatched. -/
def ingLoop (tr : String → Except Unit String) (meal : Meal) :
    List Nat → Meal → Option Meal × List ExtCall
  | [], acc => (some acc, [])
  | i :: rest, acc =>
    if truthy (meal.strIngredient i) then
      match tr ((meal.strIngredient i).getD "") with
      | .error _ => (none, [ExtCall.translate ((meal.strIngredient i).getD "")])
      | .ok t =>
        let r := ingLoop tr meal rest (setIngredient acc i t)
        (r.1, ExtCall.translate ((meal.strIngredient i).getD "") :: r.2)
    else
      ingLoop tr meal rest acc

/-- Lines 672-683: `translatedMeal = { ...meal }`, then translate
`strMeal`, then `strInstructions` (each a sequential await whose thrown
error aborts the handler), then the ingredient loop over slots 1..20.
Returns the assembled record (`none` when any translation threw) and the
translate calls dispatched, in dispatch order. -/
def translateMeal (tr : String → Except Unit String) (meal : Meal) :
    Option Meal × List ExtCall :=
  match tr meal.strMeal with
  | .error _ => (none, [ExtCall.translate meal.strMeal])
  | .ok tName =>
    match tr meal.strInstructions with
    | .error _ =>
        (none, [ExtCall.translate meal.strMeal, ExtCall.translate meal.strInstructions])
    | .ok tInstr =>
      let r := ingLoop tr meal (List.range' 1 maxIngredients)
        { meal with strMeal := tName, strInstructions := tInstr }
      (r.1, ExtCall.translate meal.strMeal :: ExtCall.translate meal.strInstructions :: r.2)

/-- The error body of the catch-all branch (index.ts line 691). -/
def errMsg : String := "Falha ao buscar ou traduzir a receita"

/-- The continuation of the handler once a meal was found (index.ts lines
672-692): translate all fields; on any thrown translation error the
catch-all answers 500 and the cache is untouched; on success, `cache.set`
runs inside the same `try`, so a throwing `set` (`putOk = false`) also
lands in the catch-all and answers 500 with the cache untouched; only when
`set` returns normally is the translated record sent. -/
def processFoundMeal (p : Providers) (st : CacheState) (name : String) (meal : Meal) :
    RecipeResponse × CacheState × List ExtCall :=
  let r := translateMeal p.tr meal
  match r.1 with
  | none => (RecipeResponse.serverError errMsg, st, ExtCall.source name :: r.2)
  | some tm =>
    if p.putOk then
      (RecipeResponse.ok tm, cacheSet st (recipeCacheKey name) tm,
        ExtCall.source name :: r.2)
    else
      (RecipeResponse.serverError errMsg, st, ExtCall.source name :: r.2)

/-- The handler of the GET route for /api/recipe/:name (index.ts lines
653-693): cache lookup first (a hit returns immediately with no external
call); on a miss, the MealDB lookup (a thrown axios error lands in the
catch-all: 500); no matching meal answers 404; otherwise the translation
continuation.  Returns the response, the cache state after the request,
and the external calls made. -/
def getTranslatedRecipe (p : Providers) (st : CacheState) (name : String) :
    RecipeResponse × CacheState × List ExtCall :=
  match cacheGet st (recipeCacheKey name) with
  | some cached => (RecipeResponse.ok cached, st, [])
  | none =>
    match p.lookup name with
    | .error _ => (RecipeResponse.serverError errMsg, st, [ExtCall.source name])
    | .ok meals =>
      match mealsHead meals with
      | none => (RecipeResponse.notFound "Receita não encontrada", st, [ExtCall.source name])
      | some meal => processFoundMeal p st name meal

/-- Whether an `Except` result is a success. -/
def exceptOk : Except Unit String → Bool
  | .ok _ => true
  | .error _ => false

/-- The ingredient part of the translation worklist: the values of the
present (truthy) slots among 1..20, in slot order. -/
def ingredientWorklist (meal : Meal) : List String :=
  ((List.range' 1 maxIngredients).filter (fun i => truthy (meal.strIngredient i))).map
    (fun i => (meal.strIngredient i).getD "")

/-- The full translation worklist of a found meal: `strMeal`,
`strInstructions`, then every present ingredient slot, in dispatch order. -/
def worklist (meal : Meal) : List String :=
  meal.strMeal :: meal.strInstructions :: ingredientWorklist meal

/-- A row of the usuario table; `senha` stores the bcrypt hash. -/
structure Usuario where
  id : String
  email : String
  senha : String
deriving DecidableEq

/-- The response of the POST route for /login: 200 with `{usuario}`, 400 with
an error body, or 500. -/
inductive LoginResponse where
  | ok (usuario : Usuario)
  | clientError (error : String)
  | serverError (error : String)
deriving DecidableEq

/-- The handler of the POST route for /login (index.ts lines 854-875),
parameterised by the database lookup `prisma.usuario.findUnique({where:
{email}})` and by `bcrypt.compare(plaintext, storedHash)`. -/
def login (findByEmail : String → Option Usuario)
    (bcryptCompare : String → String → Bool) (email senha : String) : LoginResponse :=
  match findByEmail email with
  | none => LoginResponse.clientError "Usuário não encontrado"
  | some usuario =>
    if bcryptCompare senha usuario.senha then
      LoginResponse.ok usuario
    else
      LoginResponse.clientError "Senha incorreta"

/-!  Concrete scenario data, after the test scenario of the spec (§8). -/

/-- The concrete source meal of the test scenario of the spec: name,
instructions, one present ingredient slot, one empty ingredient slot, the
remaining slots absent, and a passthrough field. -/
def teriyaki : Meal :=
  { idMeal := "52772"
    strMeal := "Teriyaki Chicken Casserole"
    strInstructions := "Preheat oven to 350 degrees."
    strIngredient := fun i =>
      if i = 1 then some "soy sauce" else if i = 2 then some "" else none
    passthrough := [("strCategory", "Chicken")] }

/-- A second matching meal, used to show that later matches are ignored. -/
def gazpacho : Meal :=
  { idMeal := "52903"
    strMeal := "Gazpacho"
    strInstructions := "Blend everything."
    strIngredient := fun _ => none
    passthrough := [] }

/-- A translation client stub that always succeeds. -/
def okTr : String → Except Unit String := fun _ => Except.ok "PT"

/-- The record the handler assembles from `teriyaki` under `okTr`. -/
def teriyakiPT : Meal :=
  setIngredient { teriyaki with strMeal := "PT", strInstructions := "PT" } 1 "PT"

/-- The translate calls the handler dispatches for `teriyaki`. -/
def trCalls : List ExtCall :=
  [ExtCall.translate "Teriyaki Chicken Casserole",
   ExtCall.translate "Preheat oven to 350 degrees.",
   ExtCall.translate "soy sauce"]

/-- Providers: lookup finds the teriyaki meal, translation succeeds, the
cache `set` works. -/
def okP : Providers :=
  { lookup := fun _ => Except.ok (some [teriyaki]), tr := okTr, putOk := true }

/-- Providers with a cache store whose `set` throws. -/
def failPutP : Providers :=
  { lookup := fun _ => Except.ok (some [teriyaki]), tr := okTr, putOk := false }

/-- Providers whose translation client fails on the ingredient value. -/
def failTrP : Providers :=
  { lookup := fun _ => Except.ok (some [teriyaki])
    tr := fun s => if s = "soy sauce" then Except.error () else Except.ok s
    putOk := true }

/-- Providers whose lookup finds nothing (MealDB answers `meals: null`). -/
def absentP : Providers :=
  { lookup := fun _ => Except.ok none, tr := okTr, putOk := true }

/-- Providers whose lookup returns two matches. -/
def twoP : Providers :=
  { lookup := fun _ => Except.ok (some [teriyaki, gazpacho]), tr := okTr, putOk := true }

/-- A cache state already holding a record under the key for "teriyaki". -/
def st0 : CacheState := [(recipeCacheKey "teriyaki", gazpacho)]

/-- The stored account used in the login scenario; `senha` holds the
bcrypt hash. -/
def alice : Usuario :=
  { id := "1", email := "alice@example.com", senha := "2b10-bcrypt-hash" }

/-- Database stub for the login scenario. -/
def findAlice : String → Option Usuario :=
  fun e => if e = "alice@example.com" then some alice else none

/-- A stand-in for `bcrypt.compare` in the login scenario. -/
def toyCompare : String → String → Bool :=
  fun plain hash => plain = "secret" && hash = "2b10-bcrypt-hash"

/-!  Helper lemmas. -/

theorem cacheGet_set_self (st : CacheState) (k : String) (m : Meal) :
    cacheGet (cacheSet st k m) k = some m := by
  show (if k = k then some m else cacheGet st k) = some m
  rw [if_pos rfl]

theorem cacheGet_set_ne (st : CacheState) (k k2 : String) (m : Meal) (h : k2 ≠ k) :
    cacheGet (cacheSet st k m) k2 = cacheGet st k2 := by
  show (if k = k2 then some m else cacheGet st k2) = cacheGet st k2
  rw [if_neg (Ne.symm h)]

theorem setIngredient_frame (m : Meal) (i : Nat) (t : String) :
    (setIngredient m i t).strMeal = m.strMeal ∧
    (setIngredient m i t).strInstructions = m.strInstructions ∧
    (setIngredient m i t).idMeal = m.idMeal ∧
    (setIngredient m i t).passthrough = m.passthrough := by
  exact ⟨rfl, rfl, rfl, rfl⟩

theorem setIngredient_ne (m : Meal) (i j : Nat) (t : String) (h : j ≠ i) :
    (setIngredient m i t).strIngredient j = m.strIngredient j := by
  simp [setIngredient, h]

theorem setIngredient_self (m : Meal) (i : Nat) (t : String) :
    (setIngredient m i t).strIngredient i = some t := by
  simp [setIngredient]

/-- On success, the loop never touches the non-ingredient fields of the
accumulator. -/
theorem ingLoop_frame (tr : String → Except Unit String) (meal : Meal) :
    ∀ (idx : List Nat) (acc out : Meal) (cs : List ExtCall),
      ingLoop tr meal idx acc = (some out, cs) →
        out.strMeal = acc.strMeal ∧ out.strInstructions = acc.strInstructions ∧
        out.idMeal = acc.idMeal ∧ out.passthrough = acc.passthrough := by
  intro idx
  induction idx with
  | nil =>
    intro acc out cs h
    simp only [ingLoop, Prod.mk.injEq, Option.some.injEq] at h
    rw [← h.1]
    exact ⟨rfl, rfl, rfl, rfl⟩
  | cons i rest ih =>
    intro acc out cs h
    by_cases ht : truthy (meal.strIngredient i)
    · rw [ingLoop, if_pos ht] at h
      cases htr : tr ((meal.strIngredient i).getD "") with
      | error e =>
        rw [htr] at h
        simp at h
      | ok t =>
        rw [htr] at h
        simp only [Prod.mk.injEq] at h
        have hre : ingLoop tr meal rest (setIngredient acc i t) =
            (some out, (ingLoop tr meal rest (setIngredient acc i t)).2) := by
          rw [← h.1]
        obtain ⟨f1, f2, f3, f4⟩ := ih (setIngredient acc i t) out _ hre
        exact ⟨f1, f2, f3, f4⟩
    · rw [ingLoop, if_neg ht] at h
      exact ih acc out cs h

/-- On success, a slot that is nowhere dispatched (not in the index list,
or falsy in the source meal) keeps its accumulator value. -/
theorem ingLoop_untouched (tr : String → Except Unit String) (meal : Meal) :
    ∀ (idx : List Nat) (acc out : Meal) (cs : List ExtCall),
      ingLoop tr meal idx acc = (some out, cs) →
        ∀ j, (j ∈ idx → truthy (meal.strIngredient j) = false) →
          out.strIngredient j = acc.strIngredient j := by
  intro idx
  induction idx with
  | nil =>
    intro acc out cs h j _
    simp only [ingLoop, Prod.mk.injEq, Option.some.injEq] at h
    rw [← h.1]
  | cons i rest ih =>
    intro acc out cs h j hj
    by_cases ht : truthy (meal.strIngredient i)
    · rw [ingLoop, if_pos ht] at h
      cases htr : tr ((meal.strIngredient i).getD "") with
      | error e =>
        rw [htr] at h
        simp at h
      | ok t =>
        rw [htr] at h
        simp only [Prod.mk.injEq] at h
        have hre : ingLoop tr meal rest (setIngredient acc i t) =
            (some out, (ingLoop tr meal rest (setIngredient acc i t)).2) := by
          rw [← h.1]
        have hji : j ≠ i := by
          intro hcon
          have := hj (by rw [hcon]; exact List.mem_cons_self i rest)
          rw [hcon] at this
          rw [this] at ht
          exact Bool.false_ne_true ht
        have := ih (setIngredient acc i t) out _ hre j
          (fun hm => hj (List.mem_cons_of_mem i hm))
        rw [this]
        exact setIngredient_ne acc i j t hji
    · rw [ingLoop, if_neg ht] at h
      exact ih acc out cs h j (fun hm => hj (List.mem_cons_of_mem i hm))

/-- On success, every dispatched (truthy, in-index) slot holds the
translation of its source value. -/
theorem ingLoop_translated (tr : String → Except Unit String) (meal : Meal) :
    ∀ (idx : List Nat) (acc out : Meal) (cs : List ExtCall),
      ingLoop tr meal idx acc = (some out, cs) →
        ∀ j, j ∈ idx → truthy (meal.strIngredient j) = true →
          ∃ t, tr ((meal.strIngredient j).getD "") = Except.ok t ∧
            out.strIngredient j = some t := by
  intro idx
  induction idx with
  | nil =>
    intro acc out cs h j hj
    exact absurd hj (List.not_mem_nil j)
  | cons i rest ih =>
    intro acc out cs h j hj hjt
    by_cases ht : truthy (meal.strIngredient i)
    · rw [ingLoop, if_pos ht] at h
      cases htr : tr ((meal.strIngredient i).getD "") with
      | error e =>
        rw [htr] at h
        simp at h
      | ok t =>
        rw [htr] at h
        simp only [Prod.mk.injEq] at h
        have hre : ingLoop tr meal rest (setIngredient acc i t) =
            (some out, (ingLoop tr meal rest (setIngredient acc i t)).2) := by
          rw [← h.1]
        by_cases hjr : j ∈ rest
        · exact ih (setIngredient acc i t) out _ hre j hjr hjt
        · have hji : j = i := by
            rcases List.mem_cons.mp hj with h' | h'
            · exact h'
            · exact absurd h' hjr
          subst hji
          refine ⟨t, htr, ?_⟩
          have := ingLoop_untouched tr meal rest (setIngredient acc j t) out _ hre j
            (fun hm => absurd hm hjr)
          rw [this]
          exact setIngredient_self acc j t
    · rw [ingLoop, if_neg ht] at h
      rcases List.mem_cons.mp hj with h' | h'
      · rw [h'] at hjt
        rw [hjt] at ht
        exact absurd rfl ht
      · exact ih acc out cs h j h' hjt

/-- On success, the dispatched translate calls are exactly the truthy
slots of the index list, in order. -/
theorem ingLoop_calls_ok (tr : String → Except Unit String) (meal : Meal) :
    ∀ (idx : List Nat) (acc out : Meal) (cs : List ExtCall),
      ingLoop tr meal idx acc = (some out, cs) →
        cs = (idx.filter (fun i => truthy (meal.strIngredient i))).map
          (fun i => ExtCall.translate ((meal.strIngredient i).getD "")) := by
  intro idx
  induction idx with
  | nil =>
    intro acc out cs h
    simp only [ingLoop, Prod.mk.injEq] at h
    rw [← h.2]
    rfl
  | cons i rest ih =>
    intro acc out cs h
    by_cases ht : truthy (meal.strIngredient i)
    · rw [ingLoop, if_pos ht] at h
      cases htr : tr ((meal.strIngredient i).getD "") with
      | error e =>
        rw [htr] at h
        simp at h
      | ok t =>
        rw [htr] at h
        simp only [Prod.mk.injEq] at h
        have hre : ingLoop tr meal rest (setIngredient acc i t) =
            (some out, (ingLoop tr meal rest (setIngredient acc i t)).2) := by
          rw [← h.1]
        have hcs := ih (setIngredient acc i t) out _ hre
        have hfc : List.filter (fun i => truthy (meal.strIngredient i)) (i :: rest) =
            i :: List.filter (fun i => truthy (meal.strIngredient i)) rest := by
          simp [List.filter_cons, ht]
        rw [← h.2, hfc, List.map_cons, ← hcs]
    · rw [ingLoop, if_neg ht] at h
      have hcs := ih acc out cs h
      have ht' : truthy (meal.strIngredient i) = false := Bool.eq_false_iff.mpr ht
      have hfc : List.filter (fun i => truthy (meal.strIngredient i)) (i :: rest) =
          List.filter (fun i => truthy (meal.strIngredient i)) rest := by
        simp [List.filter_cons, ht']
      rw [hfc]
      exact hcs

/-- Whatever the outcome, every dispatched translate call originates from
a truthy slot of the index list: falsy (absent or empty) slots never cost
a call. -/
theorem ingLoop_calls_sub (tr : String → Except Unit String) (meal : Meal) :
    ∀ (idx : List Nat) (acc : Meal),
      ∀ c ∈ (ingLoop tr meal idx acc).2,
        ∃ i, i ∈ idx ∧ truthy (meal.strIngredient i) = true ∧
          c = ExtCall.translate ((meal.strIngredient i).getD "") := by
  intro idx
  induction idx with
  | nil =>
    intro acc c hc
    simp [ingLoop] at hc
  | cons i rest ih =>
    intro acc c hc
    by_cases ht : truthy (meal.strIngredient i)
    · rw [ingLoop, if_pos ht] at hc
      cases htr : tr ((meal.strIngredient i).getD "") with
      | error e =>
        rw [htr] at hc
        simp only [List.mem_singleton] at hc
        exact ⟨i, List.mem_cons_self i rest, ht, hc⟩
      | ok t =>
        rw [htr] at hc
        simp only [List.mem_cons] at hc
        rcases hc with hc | hc
        · exact ⟨i, List.mem_cons_self i rest, ht, hc⟩
        · obtain ⟨j, hj, hjt, hje⟩ := ih (setIngredient acc i t) c hc
          exact ⟨j, List.mem_cons_of_mem i hj, hjt, hje⟩
    · rw [ingLoop, if_neg ht] at hc
      obtain ⟨j, hj, hjt, hje⟩ := ih acc c hc
      exact ⟨j, List.mem_cons_of_mem i hj, hjt, hje⟩

/-- If some truthy slot of the index list has a failing translation, the
loop fails. -/
theorem ingLoop_fail (tr : String → Except Unit String) (meal : Meal) :
    ∀ (idx : List Nat) (acc : Meal),
      (∃ i ∈ idx, truthy (meal.strIngredient i) = true ∧
        exceptOk (tr ((meal.strIngredient i).getD "")) = false) →
      (ingLoop tr meal idx acc).1 = none := by
  intro idx
  induction idx with
  | nil =>
    intro acc h
    obtain ⟨i, hi, _⟩ := h
    exact absurd hi (List.not_mem_nil i)
  | cons i rest ih =>
    intro acc h
    obtain ⟨j, hj, hjt, hjf⟩ := h
    by_cases ht : truthy (meal.strIngredient i)
    · rw [ingLoop, if_pos ht]
      cases htr : tr ((meal.strIngredient i).getD "") with
      | error e => rfl
      | ok t =>
        have hjr : j ∈ rest := by
          rcases List.mem_cons.mp hj with h' | h'
          · rw [h'] at hjf
            rw [htr] at hjf
            simp [exceptOk] at hjf
          · exact h'
        exact ih (setIngredient acc i t) ⟨j, hjr, hjt, hjf⟩
    · rw [ingLoop, if_neg ht]
      have hjr : j ∈ rest := by
        rcases List.mem_cons.mp hj with h' | h'
        · rw [h'] at hjt
          rw [hjt] at ht
          exact absurd rfl ht
        · exact h'
      exact ih acc ⟨j, hjr, hjt, hjf⟩

/-- Successful field translation decomposed: both single-field
translations succeeded and the ingredient loop succeeded on the spread
copy with `strMeal`/`strInstructions` already overwritten. -/
theorem translateMeal_ok_spec (tr : String → Except Unit String) (meal tm : Meal)
    (cs : List ExtCall) (h : translateMeal tr meal = (some tm, cs)) :
    ∃ tName tInstr cs2,
      tr meal.strMeal = Except.ok tName ∧
      tr meal.strInstructions = Except.ok tInstr ∧
      ingLoop tr meal (List.range' 1 maxIngredients)
        { meal with strMeal := tName, strInstructions := tInstr } = (some tm, cs2) ∧
      cs = ExtCall.translate meal.strMeal :: ExtCall.translate meal.strInstructions :: cs2 := by
  unfold translateMeal at h
  cases h1 : tr meal.strMeal with
  | error e =>
    rw [h1] at h
    simp at h
  | ok tName =>
    rw [h1] at h
    cases h2 : tr meal.strInstructions with
    | error e =>
      rw [h2] at h
      simp at h
    | ok tInstr =>
      rw [h2] at h
      simp only [Prod.mk.injEq] at h
      refine ⟨tName, tInstr,
        (ingLoop tr meal (List.range' 1 maxIngredients)
          { meal with strMeal := tName, strInstructions := tInstr }).2,
        rfl, rfl, ?_, ?_⟩
      · rw [← h.1]
      · rw [← h.2]

/-- A failing item anywhere in the worklist makes the whole field
translation fail. -/
theorem translateMeal_fail (tr : String → Except Unit String) (meal : Meal)
    (h : ∃ t ∈ worklist meal, exceptOk (tr t) = false) :
    (translateMeal tr meal).1 = none := by
  obtain ⟨t, hmem, hfail⟩ := h
  unfold worklist at hmem
  unfold translateMeal
  cases h1 : tr meal.strMeal with
  | error e => rfl
  | ok tName =>
    cases h2 : tr meal.strInstructions with
    | error e => rfl
    | ok tInstr =>
      simp only [List.mem_cons] at hmem
      rcases hmem with hm | hm | hm
      · rw [hm, h1] at hfail
        simp [exceptOk] at hfail
      · rw [hm, h2] at hfail
        simp [exceptOk] at hfail
      · simp only
        unfold ingredientWorklist at hm
        rw [List.mem_map] at hm
        obtain ⟨i, hi, hie⟩ := hm
        rw [List.mem_filter] at hi
        exact ingLoop_fail tr meal (List.range' 1 maxIngredients) _
          ⟨i, hi.1, hi.2, by rw [hie]; exact hfail⟩

/-- Cache hit: the handler answers the cached record with the state
untouched and no external call. -/
theorem getTranslatedRecipe_hit (p : Providers) (st : CacheState) (name : String)
    (r : Meal) (h : cacheGet st (recipeCacheKey name) = some r) :
    getTranslatedRecipe p st name = (RecipeResponse.ok r, st, []) := by
  unfold getTranslatedRecipe
  rw [h]

/-- Cache miss with a found meal: the handler is the translation
continuation; the tail of the lookup result is irrelevant. -/
theorem getTranslatedRecipe_miss_found (p : Providers) (st : CacheState)
    (name : String) (meals : Option (List Meal)) (meal : Meal)
    (h1 : cacheGet st (recipeCacheKey name) = none)
    (h2 : p.lookup name = Except.ok meals)
    (h3 : mealsHead meals = some meal) :
    getTranslatedRecipe p st name = processFoundMeal p st name meal := by
  unfold getTranslatedRecipe
  simp only [h1, h2, h3]

/-- Cache miss with no matching meal: 404, state untouched, only the
source call made. -/
theorem getTranslatedRecipe_miss_absent (p : Providers) (st : CacheState)
    (name : String) (meals : Option (List Meal))
    (h1 : cacheGet st (recipeCacheKey name) = none)
    (h2 : p.lookup name = Except.ok meals)
    (h3 : mealsHead meals = none) :
    getTranslatedRecipe p st name =
      (RecipeResponse.notFound "Receita não encontrada", st, [ExtCall.source name]) := by
  unfold getTranslatedRecipe
  simp only [h1, h2, h3]

/-- Cache miss with a thrown lookup error: 500, state untouched. -/
theorem getTranslatedRecipe_lookup_error (p : Providers) (st : CacheState)
    (name : String) (e : Unit)
    (h1 : cacheGet st (recipeCacheKey name) = none)
    (h2 : p.lookup name = Except.error e) :
    getTranslatedRecipe p st name =
      (RecipeResponse.serverError errMsg, st, [ExtCall.source name]) := by
  unfold getTranslatedRecipe
  simp only [h1, h2]

/-- Translation failure branch of the continuation. -/
theorem processFoundMeal_fail (p : Providers) (st : CacheState) (name : String)
    (meal : Meal) (cs : List ExtCall) (h : translateMeal p.tr meal = (none, cs)) :
    processFoundMeal p st name meal =
      (RecipeResponse.serverError errMsg, st, ExtCall.source name :: cs) := by
  unfold processFoundMeal
  simp only [h]

/-- Success branch with a working cache `set`. -/
theorem processFoundMeal_ok_put (p : Providers) (st : CacheState) (name : String)
    (meal tm : Meal) (cs : List ExtCall)
    (h : translateMeal p.tr meal = (some tm, cs)) (hp : p.putOk = true) :
    processFoundMeal p st name meal =
      (RecipeResponse.ok tm, cacheSet st (recipeCacheKey name) tm,
        ExtCall.source name :: cs) := by
  unfold processFoundMeal
  simp only [h, hp, if_true]

/-- Success branch with a throwing cache `set`: the catch-all answers 500
and the state is untouched. -/
theorem processFoundMeal_ok_noput (p : Providers) (st : CacheState) (name : String)
    (meal tm : Meal) (cs : List ExtCall)
    (h : translateMeal p.tr meal = (some tm, cs)) (hp : p.putOk = false) :
    processFoundMeal p st name meal =
      (RecipeResponse.serverError errMsg, st, ExtCall.source name :: cs) := by
  unfold processFoundMeal
  simp only [h, hp]
  rw [if_neg Bool.false_ne_true]

/-- A 200 answer implies the answered record now sits in the resulting
cache state under the request key. -/
theorem ok_cached (p : Providers) (st : CacheState) (name : String) (m : Meal)
    (st2 : CacheState) (calls : List ExtCall)
    (h : getTranslatedRecipe p st name = (RecipeResponse.ok m, st2, calls)) :
    cacheGet st2 (recipeCacheKey name) = some m := by
  cases hc : cacheGet st (recipeCacheKey name) with
  | some c =>
    rw [getTranslatedRecipe_hit p st name c hc] at h
    simp only [Prod.mk.injEq, RecipeResponse.ok.injEq] at h
    rw [← h.2.1, ← h.1]
    exact hc
  | none =>
    cases hl : p.lookup name with
    | error e =>
      rw [getTranslatedRecipe_lookup_error p st name e hc hl] at h
      simp at h
    | ok meals =>
      cases hm : mealsHead meals with
      | none =>
        rw [getTranslatedRecipe_miss_absent p st name meals hc hl hm] at h
        simp at h
      | some meal =>
        rw [getTranslatedRecipe_miss_found p st name meals meal hc hl hm] at h
        cases htm : translateMeal p.tr meal with
        | mk o csx =>
          cases o with
          | none =>
            rw [processFoundMeal_fail p st name meal csx htm] at h
            simp at h
          | some tm =>
            by_cases hp : p.putOk
            · rw [processFoundMeal_ok_put p st name meal tm csx htm hp] at h
              simp only [Prod.mk.injEq, RecipeResponse.ok.injEq] at h
              rw [← h.2.1, ← h.1]
              exact cacheGet_set_self st (recipeCacheKey name) tm
            · rw [processFoundMeal_ok_noput p st name meal tm csx htm
                (Bool.eq_false_iff.mpr hp)] at h
              simp at h

/-- Case split on the resulting cache state: either untouched, or, on a
miss that was answered 200, extended with exactly the answered record. -/
theorem state_cases (p : Providers) (st : CacheState) (name : String) :
    (getTranslatedRecipe p st name).2.1 = st ∨
    (cacheGet st (recipeCacheKey name) = none ∧
      ∃ tm, (getTranslatedRecipe p st name).1 = RecipeResponse.ok tm ∧
        (getTranslatedRecipe p st name).2.1 = cacheSet st (recipeCacheKey name) tm) := by
  cases hc : cacheGet st (recipeCacheKey name) with
  | some c =>
    left
    rw [getTranslatedRecipe_hit p st name c hc]
  | none =>
    cases hl : p.lookup name with
    | error e =>
      left
      rw [getTranslatedRecipe_lookup_error p st name e hc hl]
    | ok meals =>
      cases hm : mealsHead meals with
      | none =>
        left
        rw [getTranslatedRecipe_miss_absent p st name meals hc hl hm]
      | some meal =>
        cases htm : translateMeal p.tr meal with
        | mk o csx =>
          cases o with
          | none =>
            left
            rw [getTranslatedRecipe_miss_found p st name meals meal hc hl hm,
              processFoundMeal_fail p st name meal csx htm]
          | some tm =>
            by_cases hp : p.putOk
            · right
              refine ⟨rfl, tm, ?_, ?_⟩
              · rw [getTranslatedRecipe_miss_found p st name meals meal hc hl hm,
                  processFoundMeal_ok_put p st name meal tm csx htm hp]
              · rw [getTranslatedRecipe_miss_found p st name meals meal hc hl hm,
                  processFoundMeal_ok_put p st name meal tm csx htm hp]
            · left
              rw [getTranslatedRecipe_miss_found p st name meals meal hc hl hm,
                processFoundMeal_ok_noput p st name meal tm csx htm
                  (Bool.eq_false_iff.mpr hp)]

/-!  Claims. -/

/-- Claim C1 is false on the code: `cache.set` runs inside the try block of the handler, so with providers whose cache `set` throws, every translation
having succeeded, the handler lands in the catch-all and answers the 500
error body — the translated record is not returned to the caller. -/
theorem C1_counterexample :
    ((translateMeal failPutP.tr teriyaki).1).isSome = true ∧
    failPutP.putOk = false ∧
    (getTranslatedRecipe failPutP [] "teriyaki").1 = RecipeResponse.serverError errMsg ∧
    RecipeResponse.isOk (getTranslatedRecipe failPutP [] "teriyaki").1 = false :=
  ⟨rfl, rfl, rfl, rfl⟩

/-- Claim C1 amended: if the Cache Store put throws after all
translations succeeded, the handler answers the 500 error body instead of
the translated record (the failure is logged by the catch-all), and the
cache state is left unchanged — a cache-write failure does fail the
overall request. -/
theorem C1_amended_put_failure_fails_request (p : Providers) (st : CacheState)
    (name : String) (meals : Option (List Meal)) (meal tm : Meal) (cs : List ExtCall)
    (h1 : cacheGet st (recipeCacheKey name) = none)
    (h2 : p.lookup name = Except.ok meals)
    (h3 : mealsHead meals = some meal)
    (h4 : translateMeal p.tr meal = (some tm, cs))
    (h5 : p.putOk = false) :
    getTranslatedRecipe p st name =
      (RecipeResponse.serverError errMsg, st, ExtCall.source name :: cs) := by
  rw [getTranslatedRecipe_miss_found p st name meals meal h1 h2 h3,
    processFoundMeal_ok_noput p st name meal tm cs h4 h5]

/-- Witness for the amended C1 at the concrete scenario. -/
theorem C1_amended_witness :
    getTranslatedRecipe failPutP [] "teriyaki" =
      (RecipeResponse.serverError errMsg, [], ExtCall.source "teriyaki" :: trCalls) :=
  C1_amended_put_failure_fails_request failPutP [] "teriyaki" (some [teriyaki])
    teriyaki teriyakiPT trCalls rfl rfl rfl rfl rfl

/-- Claim C2: if the translation of any single worklist field fails, the
whole request fails with the 500 error body, no partially-translated
record is returned, and the cache state is unchanged — no entry is
written for the identifier. -/
theorem C2_translation_failure_atomic (p : Providers) (st : CacheState)
    (name : String) (meals : Option (List Meal)) (meal : Meal)
    (h1 : cacheGet st (recipeCacheKey name) = none)
    (h2 : p.lookup name = Except.ok meals)
    (h3 : mealsHead meals = some meal)
    (h4 : ∃ t ∈ worklist meal, exceptOk (p.tr t) = false) :
    (getTranslatedRecipe p st name).1 = RecipeResponse.serverError errMsg ∧
    ((getTranslatedRecipe p st name).1).status = 500 ∧
    (getTranslatedRecipe p st name).2.1 = st := by
  rw [getTranslatedRecipe_miss_found p st name meals meal h1 h2 h3]
  have hfail := translateMeal_fail p.tr meal h4
  cases htm : translateMeal p.tr meal with
  | mk o csx =>
    rw [htm] at hfail
    cases o with
    | some tm => simp at hfail
    | none =>
      rw [processFoundMeal_fail p st name meal csx htm]
      exact ⟨rfl, rfl, rfl⟩

/-- Witness for C2: the translation of the single ingredient fails, the
whole request answers 500 and the cache stays empty. -/
theorem C2_witness :
    (getTranslatedRecipe failTrP [] "teriyaki").1 = RecipeResponse.serverError errMsg ∧
    ((getTranslatedRecipe failTrP [] "teriyaki").1).status = 500 ∧
    (getTranslatedRecipe failTrP [] "teriyaki").2.1 = [] :=
  C2_translation_failure_atomic failTrP [] "teriyaki" (some [teriyaki]) teriyaki
    rfl rfl rfl ⟨"soy sauce", by decide, rfl⟩

/-- Claim C3: a cached identifier is answered from the cache with the
state untouched and zero external calls; consequently, a second call right
after any successful call — under arbitrary providers — answers the
identical record with zero external calls. -/
theorem C3_idempotent_cache_hit (p p2 : Providers) (st : CacheState) (name : String) :
    (∀ r, cacheGet st (recipeCacheKey name) = some r →
      getTranslatedRecipe p st name = (RecipeResponse.ok r, st, [])) ∧
    (∀ m st2 calls, getTranslatedRecipe p st name = (RecipeResponse.ok m, st2, calls) →
      getTranslatedRecipe p2 st2 name = (RecipeResponse.ok m, st2, [])) := by
  constructor
  · intro r h
    exact getTranslatedRecipe_hit p st name r h
  · intro m st2 calls h
    exact getTranslatedRecipe_hit p2 st2 name m (ok_cached p st name m st2 calls h)

/-- Witness for C3: after the successful first call for "teriyaki", the
second call answers the identical record with zero external calls. -/
theorem C3_witness :
    getTranslatedRecipe okP (cacheSet [] (recipeCacheKey "teriyaki") teriyakiPT)
      "teriyaki" =
      (RecipeResponse.ok teriyakiPT,
        cacheSet [] (recipeCacheKey "teriyaki") teriyakiPT, []) :=
  (C3_idempotent_cache_hit okP okP [] "teriyaki").2 teriyakiPT
    (cacheSet [] (recipeCacheKey "teriyaki") teriyakiPT)
    (ExtCall.source "teriyaki" :: trCalls) rfl

/-- Claim C4: an identifier absent at the source is answered 404 with the
not-found error body — never a generic 500 — with the state untouched and
no translate call dispatched. -/
theorem C4_not_found (p : Providers) (st : CacheState) (name : String)
    (meals : Option (List Meal))
    (h1 : cacheGet st (recipeCacheKey name) = none)
    (h2 : p.lookup name = Except.ok meals)
    (h3 : mealsHead meals = none) :
    getTranslatedRecipe p st name =
      (RecipeResponse.notFound "Receita não encontrada", st, [ExtCall.source name]) ∧
    ((getTranslatedRecipe p st name).1).status = 404 ∧
    ((getTranslatedRecipe p st name).1).status ≠ 500 := by
  have h := getTranslatedRecipe_miss_absent p st name meals h1 h2 h3
  refine ⟨h, ?_, ?_⟩
  · rw [h]
    rfl
  · rw [h]
    show (404 : Nat) ≠ 500
    decide

/-- Witness for C4 at an absent identifier. -/
theorem C4_witness :
    getTranslatedRecipe absentP [] "nonexistent" =
      (RecipeResponse.notFound "Receita não encontrada", [],
        [ExtCall.source "nonexistent"]) :=
  (C4_not_found absentP [] "nonexistent" none rfl rfl rfl).1

/-- Claim C5: the assembled record overwrites exactly `strMeal`,
`strInstructions` and the present ingredient slots with translations; the
identifier and every passthrough field are copied verbatim; absent or
empty slots are copied verbatim; slots outside 1..20 are untouched; and
for a translator producing nonempty text the set of present slots is
identical between source and output. -/
theorem C5_field_preservation (tr : String → Except Unit String) (meal tm : Meal)
    (cs : List ExtCall)
    (h : translateMeal tr meal = (some tm, cs))
    (htr : ∀ s t, tr s = Except.ok t → t.isEmpty = false) :
    tr meal.strMeal = Except.ok tm.strMeal ∧
    tr meal.strInstructions = Except.ok tm.strInstructions ∧
    tm.idMeal = meal.idMeal ∧
    tm.passthrough = meal.passthrough ∧
    (∀ i, truthy (meal.strIngredient i) = false →
      tm.strIngredient i = meal.strIngredient i) ∧
    (∀ i, truthy (meal.strIngredient i) = true → 1 ≤ i → i ≤ maxIngredients →
      ∃ t, tr ((meal.strIngredient i).getD "") = Except.ok t ∧
        tm.strIngredient i = some t) ∧
    (∀ i, i = 0 ∨ maxIngredients < i →
      tm.strIngredient i = meal.strIngredient i) ∧
    (∀ i, truthy (tm.strIngredient i) = truthy (meal.strIngredient i)) := by
  obtain ⟨tName, tInstr, cs2, ht1, ht2, hloop, hcs⟩ :=
    translateMeal_ok_spec tr meal tm cs h
  have frame := ingLoop_frame tr meal (List.range' 1 maxIngredients) _ tm cs2 hloop
  have e1 : tm.strMeal = tName := frame.1
  have e2 : tm.strInstructions = tInstr := frame.2.1
  have untouched : ∀ i, (i ∈ List.range' 1 maxIngredients →
      truthy (meal.strIngredient i) = false) →
      tm.strIngredient i = meal.strIngredient i := fun i hi =>
    ingLoop_untouched tr meal (List.range' 1 maxIngredients) _ tm cs2 hloop i hi
  have translated : ∀ i, i ∈ List.range' 1 maxIngredients →
      truthy (meal.strIngredient i) = true →
      ∃ t, tr ((meal.strIngredient i).getD "") = Except.ok t ∧
        tm.strIngredient i = some t := fun i hi ht =>
    ingLoop_translated tr meal (List.range' 1 maxIngredients) _ tm cs2 hloop i hi ht
  refine ⟨?_, ?_, frame.2.2.1, frame.2.2.2, ?_, ?_, ?_, ?_⟩
  · rw [e1]
    exact ht1
  · rw [e2]
    exact ht2
  · intro i hi
    exact untouched i (fun _ => hi)
  · intro i ht hi1 hi2
    exact translated i (List.mem_range'_1.mpr ⟨hi1, by omega⟩) ht
  · intro i hi
    exact untouched i (fun hm => absurd (List.mem_range'_1.mp hm) (by omega))
  · intro i
    by_cases ht : truthy (meal.strIngredient i) = true
    · by_cases hmem : i ∈ List.range' 1 maxIngredients
      · obtain ⟨t, htt, hout⟩ := translated i hmem ht
        rw [hout, ht]
        simp [truthy, htr ((meal.strIngredient i).getD "") t htt]
      · rw [untouched i (fun hm => absurd hm hmem)]
    · rw [untouched i (fun _ => Bool.eq_false_iff.mpr ht)]

/-- Witness for C5 at the concrete scenario. -/
theorem C5_witness :
    okTr teriyaki.strMeal = Except.ok teriyakiPT.strMeal ∧
    okTr teriyaki.strInstructions = Except.ok teriyakiPT.strInstructions ∧
    teriyakiPT.idMeal = teriyaki.idMeal ∧
    teriyakiPT.passthrough = teriyaki.passthrough ∧
    (∀ i, truthy (teriyaki.strIngredient i) = false →
      teriyakiPT.strIngredient i = teriyaki.strIngredient i) ∧
    (∀ i, truthy (teriyaki.strIngredient i) = true → 1 ≤ i → i ≤ maxIngredients →
      ∃ t, okTr ((teriyaki.strIngredient i).getD "") = Except.ok t ∧
        teriyakiPT.strIngredient i = some t) ∧
    (∀ i, i = 0 ∨ maxIngredients < i →
      teriyakiPT.strIngredient i = teriyaki.strIngredient i) ∧
    (∀ i, truthy (teriyakiPT.strIngredient i) = truthy (teriyaki.strIngredient i)) :=
  C5_field_preservation okTr teriyaki teriyakiPT trCalls rfl
    (fun _ t h => by rw [← Except.ok.inj h]; rfl)

/-- Claim C6: the ingredient worklist ranges exactly over the slots
1..20, with 20 the named bound: every present slot in that range is
translated into the output, slots outside the range are never touched,
and every dispatched call is either for `strMeal`, for `strInstructions`,
or for a present slot inside the range. -/
theorem C6_worklist_range (tr : String → Except Unit String) (meal tm : Meal)
    (cs : List ExtCall) (h : translateMeal tr meal = (some tm, cs)) :
    maxIngredients = 20 ∧
    (∀ i, 1 ≤ i → i ≤ maxIngredients → truthy (meal.strIngredient i) = true →
      ∃ t, tr ((meal.strIngredient i).getD "") = Except.ok t ∧
        tm.strIngredient i = some t) ∧
    (∀ i, i = 0 ∨ maxIngredients < i →
      tm.strIngredient i = meal.strIngredient i) ∧
    (∀ c ∈ cs, c = ExtCall.translate meal.strMeal ∨
      c = ExtCall.translate meal.strInstructions ∨
      ∃ i, 1 ≤ i ∧ i ≤ maxIngredients ∧ truthy (meal.strIngredient i) = true ∧
        c = ExtCall.translate ((meal.strIngredient i).getD "")) := by
  obtain ⟨tName, tInstr, cs2, ht1, ht2, hloop, hcs⟩ :=
    translateMeal_ok_spec tr meal tm cs h
  refine ⟨rfl, ?_, ?_, ?_⟩
  · intro i ht hi1 hi2
    exact ingLoop_translated tr meal (List.range' 1 maxIngredients) _ tm cs2 hloop i
      (List.mem_range'_1.mpr ⟨ht, by omega⟩) hi2
  · intro i hi
    exact ingLoop_untouched tr meal (List.range' 1 maxIngredients) _ tm cs2 hloop i
      (fun hm => absurd (List.mem_range'_1.mp hm) (by omega))
  · intro c hc
    rw [hcs] at hc
    rcases List.mem_cons.mp hc with h' | h'
    · exact Or.inl h'
    rcases List.mem_cons.mp h' with h2 | h2
    · exact Or.inr (Or.inl h2)
    have hc2 : c ∈ (ingLoop tr meal (List.range' 1 maxIngredients)
        { meal with strMeal := tName, strInstructions := tInstr }).2 := by
      rw [hloop]
      exact h2
    obtain ⟨i, hi, ht, he⟩ :=
      ingLoop_calls_sub tr meal (List.range' 1 maxIngredients) _ c hc2
    have hb := List.mem_range'_1.mp hi
    exact Or.inr (Or.inr ⟨i, hb.1, by omega, ht, he⟩)

/-- Witness for C6 at the concrete scenario: the bound is 20 and slot 21
is untouched. -/
theorem C6_witness :
    maxIngredients = 20 ∧
    teriyakiPT.strIngredient 21 = teriyaki.strIngredient 21 :=
  ⟨(C6_worklist_range okTr teriyaki teriyakiPT trCalls rfl).1,
   (C6_worklist_range okTr teriyaki teriyakiPT trCalls rfl).2.2.1 21
     (Or.inr (by decide))⟩

/-- Claim C7: the cache is append-only from the point of view of the handler —
a hit leaves the whole state untouched; in every case the state is either
unchanged or extended, on a miss answered 200, with exactly the answered
record under the key of this identifier; entries under any other key are never
updated or deleted. -/
theorem C7_append_only (p : Providers) (st : CacheState) (name : String) :
    (∀ r, cacheGet st (recipeCacheKey name) = some r →
      (getTranslatedRecipe p st name).2.1 = st) ∧
    ((getTranslatedRecipe p st name).2.1 = st ∨
      (cacheGet st (recipeCacheKey name) = none ∧
        ∃ tm, (getTranslatedRecipe p st name).1 = RecipeResponse.ok tm ∧
          (getTranslatedRecipe p st name).2.1 =
            cacheSet st (recipeCacheKey name) tm)) ∧
    (∀ k, k ≠ recipeCacheKey name →
      cacheGet ((getTranslatedRecipe p st name).2.1) k = cacheGet st k) := by
  refine ⟨?_, state_cases p st name, ?_⟩
  · intro r h
    rw [getTranslatedRecipe_hit p st name r h]
  · intro k hk
    rcases state_cases p st name with h | ⟨_, tm, _, h⟩
    · rw [h]
    · rw [h]
      exact cacheGet_set_ne st (recipeCacheKey name) k tm hk

/-- Witness for C7: a later request for an already-cached identifier
leaves the stored state unchanged. -/
theorem C7_witness :
    (getTranslatedRecipe okP st0 "teriyaki").2.1 = st0 :=
  (C7_append_only okP st0 "teriyaki").1 gazpacho rfl

/-- Claim C8: empty or absent ingredient slots never cost a translation
round-trip — whatever the loop outcome, every dispatched ingredient call
stems from a slot whose source value is present (neither null nor empty)
in the 1..20 range. -/
theorem C8_no_call_for_empty_slots (tr : String → Except Unit String)
    (meal acc : Meal) :
    ∀ c ∈ (ingLoop tr meal (List.range' 1 maxIngredients) acc).2,
      ∃ i, 1 ≤ i ∧ i ≤ maxIngredients ∧ truthy (meal.strIngredient i) = true ∧
        c = ExtCall.translate ((meal.strIngredient i).getD "") := by
  intro c hc
  obtain ⟨i, hi, ht, he⟩ :=
    ingLoop_calls_sub tr meal (List.range' 1 maxIngredients) acc c hc
  have hb := List.mem_range'_1.mp hi
  exact ⟨i, hb.1, by omega, ht, he⟩

/-- Witness for C8: the single dispatched ingredient call for the
scenario meal stems from its present slot. -/
theorem C8_witness :
    ∃ i, 1 ≤ i ∧ i ≤ maxIngredients ∧ truthy (teriyaki.strIngredient i) = true ∧
      ExtCall.translate "soy sauce" =
        ExtCall.translate ((teriyaki.strIngredient i).getD "") :=
  C8_no_call_for_empty_slots okTr teriyaki
    { teriyaki with strMeal := "PT", strInstructions := "PT" }
    (ExtCall.translate "soy sauce") (by decide)

/-- Claim C9 (implicit): when the source lookup returns several matches,
the handler processes only the head of the list — its behaviour equals
the continuation on the first record, the tail nowhere consulted. -/
theorem C9_first_match_only (p : Providers) (st : CacheState) (name : String)
    (m : Meal) (rest : List Meal)
    (h1 : cacheGet st (recipeCacheKey name) = none)
    (h2 : p.lookup name = Except.ok (some (m :: rest))) :
    getTranslatedRecipe p st name = processFoundMeal p st name m :=
  getTranslatedRecipe_miss_found p st name (some (m :: rest)) m h1 h2 rfl

/-- Witness for C9: with two matches returned, the handler behaves as if
only the first existed. -/
theorem C9_witness :
    getTranslatedRecipe twoP [] "chicken" = processFoundMeal twoP [] "chicken" teriyaki :=
  C9_first_match_only twoP [] "chicken" teriyaki [gazpacho] rfl rfl

/-- Claim C10 (implicit): successful login answers 200 with the full
stored record — the bcrypt hash stored in `senha` is returned to the
client unredacted. -/
theorem C10_login_returns_stored_hash (findByEmail : String → Option Usuario)
    (bcryptCompare : String → String → Bool) (email senha : String) (u : Usuario)
    (hf : findByEmail email = some u)
    (hc : bcryptCompare senha u.senha = true) :
    login findByEmail bcryptCompare email senha = LoginResponse.ok u ∧
    ∃ r, login findByEmail bcryptCompare email senha = LoginResponse.ok r ∧
      r.senha = u.senha := by
  unfold login
  simp only [hf]
  rw [if_pos hc]
  exact ⟨rfl, u, rfl, rfl⟩

/-- Witness for C10 at the concrete account. -/
theorem C10_witness :
    login findAlice toyCompare "alice@example.com" "secret" = LoginResponse.ok alice ∧
    ∃ r, login findAlice toyCompare "alice@example.com" "secret" = LoginResponse.ok r ∧
      r.senha = alice.senha :=
  C10_login_returns_stored_hash findAlice toyCompare "alice@example.com" "secret"
    alice rfl rfl

end CozinhaExpress
